import Mathlib

/-!
Shallow embedding of the core numeric/state-machine layer of the Pinched
repository (`src/services/physicsEngine.ts` together with the module-level
configuration constants it imports, the variant containing the
`AMP_LOWER_QUAD`/`FREQ_LOWER_BASE` family of constants with
`THRESHOLD_UP = 1.1` and `THRESHOLD_DOWN = -0.9`).

Numbers are embedded as rationals (ℚ): every arithmetic operation the code
performs (addition, multiplication, division, integer powers, comparisons)
is exact on the inputs the claims mention, so ℚ is a faithful carrier for
the algebraic structure of the computation.
-/

namespace Pinched

/-- Branch of the hysteresis loop, the string union `'upper' | 'lower'`
in the source. -/
inductive Branch where
  | upper
  | lower
deriving DecidableEq, Repr

/-- Direction of travel, the string union
`'increasing' | 'decreasing' | 'stationary'` in the source. -/
inductive Direction where
  | increasing
  | decreasing
  | stationary
deriving DecidableEq, Repr

/-- The `SimulationState` interface from the source. -/
structure SimulationState where
  voltage : ℚ
  frequency : ℚ
  amplitude : ℚ
  branch : Branch
  direction : Direction
deriving DecidableEq, Repr

/- Configuration constants, from the `CONSTANTS` object imported by
`physicsEngine.ts` (the variant with quadratic amplitude coefficients). -/
namespace CONSTANTS

def VOLTAGE_MIN : ℚ := -1.5

def VOLTAGE_MAX : ℚ := 1.5

def THRESHOLD_UP : ℚ := 1.1

def THRESHOLD_DOWN : ℚ := -0.9

def FREQ_LOWER_BASE : ℚ := 103.28

def FREQ_UPPER_BASE : ℚ := 103.36

def FREQ_SLOPE : ℚ := 0.03

def AMP_LOWER_QUAD : ℚ := -2.5

def AMP_LOWER_LIN : ℚ := 5.0

def AMP_LOWER_CONST : ℚ := 17.5

def AMP_UPPER_QUAD : ℚ := -2.5

def AMP_UPPER_LIN : ℚ := -5.0

def AMP_UPPER_CONST : ℚ := 17.5

end CONSTANTS

/-- The frequency response: a per-branch base offset plus a linear term,
from `calculateFrequency` in the source. -/
def calculateFrequency (voltage : ℚ) (branch : Branch) : ℚ :=
  let base := match branch with
    | .upper => CONSTANTS.FREQ_UPPER_BASE
    | .lower => CONSTANTS.FREQ_LOWER_BASE
  base + CONSTANTS.FREQ_SLOPE * voltage

/-- The amplitude response: one quadratic curve per branch, from
`calculateAmplitude` in the source. -/
def calculateAmplitude (voltage : ℚ) (branch : Branch) : ℚ :=
  match branch with
  | .lower =>
      CONSTANTS.AMP_LOWER_QUAD * voltage ^ 2 +
        CONSTANTS.AMP_LOWER_LIN * voltage +
        CONSTANTS.AMP_LOWER_CONST
  | .upper =>
      CONSTANTS.AMP_UPPER_QUAD * voltage ^ 2 +
        CONSTANTS.AMP_UPPER_LIN * voltage +
        CONSTANTS.AMP_UPPER_CONST

/-- The state-transition step, from `stepSimulation` in the source: compute
the direction of travel by comparing the target voltage with the stored
one, flip the branch when moving past a threshold (inclusive), and
recompute the two derived outputs from the new branch. -/
def stepSimulation (targetVoltage : ℚ) (currentState : SimulationState) :
    SimulationState :=
  let prevVoltage := currentState.voltage
  let direction : Direction :=
    if targetVoltage > prevVoltage then .increasing
    else if targetVoltage < prevVoltage then .decreasing
    else .stationary
  let newBranch : Branch :=
    if direction = .increasing ∧ targetVoltage ≥ CONSTANTS.THRESHOLD_UP then
      .upper
    else if direction = .decreasing ∧ targetVoltage ≤ CONSTANTS.THRESHOLD_DOWN then
      .lower
    else currentState.branch
  { voltage := targetVoltage
    frequency := calculateFrequency targetVoltage newBranch
    amplitude := calculateAmplitude targetVoltage newBranch
    branch := newBranch
    direction := direction }

/-- Apply a whole drive sequence, returning the final state. -/
def runDrives (s : SimulationState) : List ℚ → SimulationState
  | [] => s
  | d :: ds => runDrives (stepSimulation d s) ds

/-- Trace of branches along a drive sequence, starting with the initial
branch. -/
def branchTrace (s : SimulationState) : List ℚ → List Branch
  | [] => [s.branch]
  | d :: ds => s.branch :: branchTrace (stepSimulation d s) ds

/-- Number of adjacent flips into a given branch along a branch trace. -/
def flipsTo (b : Branch) : List Branch → ℕ
  | [] => 0
  | [_] => 0
  | x :: y :: rest =>
      (if x ≠ y ∧ y = b then 1 else 0) + flipsTo b (y :: rest)

/-- Initial state used by the application when creating a bit: drive 0,
branch Lower, outputs taken from the response model. -/
def initialLowerState : SimulationState :=
  { voltage := 0
    frequency := CONSTANTS.FREQ_LOWER_BASE
    amplitude := calculateAmplitude 0 .lower
    branch := .lower
    direction := .stationary }

/-- Same aggregate but remembered branch Upper, drive 0. -/
def initialUpperState : SimulationState :=
  { voltage := 0
    frequency := calculateFrequency 0 .upper
    amplitude := calculateAmplitude 0 .upper
    branch := .upper
    direction := .stationary }

/-- State of the Mackey-Glass chaotic generator: the `history` list, the
unused step counter `t` and the current value `val`, mirroring the private
fields of the `MackeyGlassGenerator` class. -/
structure MackeyGlassGenerator where
  history : List ℚ
  t : ℕ
  val : ℚ
deriving DecidableEq, Repr

namespace MackeyGlassGenerator

def beta : ℚ := 0.2

def gamma : ℚ := 0.1

def tauN : ℕ := 17

def nExp : ℕ := 10

def seed : ℚ := 1.2

def capN : ℕ := 300

def seedCount : ℕ := 200

/-- Indexing of a JavaScript array at a (possibly negative or
out-of-range) integer index: in range yields the element, otherwise
`undefined`, modelled as `none`. -/
def jsIndex (h : List ℚ) (i : ℤ) : Option ℚ :=
  if 0 ≤ i ∧ i.toNat < h.length then some (h.getD i.toNat 0) else none

/-- JavaScript `a || d` on a possibly-undefined number: `undefined` and the
falsy number `0` both fall through to the default. -/
def jsOr (a : Option ℚ) (d : ℚ) : ℚ :=
  match a with
  | none => d
  | some v => if v = 0 then d else v

/-- History built by the constructor loop, which pushes the seed value
`seedCount` times onto an initially empty array. -/
def seedHistory : List ℚ :=
  (List.range seedCount).foldl (fun h _ => h ++ [seed]) []

/-- Construction of a fresh generator, from the class field initializers
and the constructor body. -/
def mkGenerator (_u : Unit) : MackeyGlassGenerator :=
  { history := seedHistory, t := 0, val := seed }

/-- One call of `next()`: returns the produced value together with the
updated generator state. -/
def next (g : MackeyGlassGenerator) : ℚ × MackeyGlassGenerator :=
  let xt := g.val
  let xt_tau := jsOr (jsIndex g.history ((g.history.length : ℤ) - (tauN : ℤ))) seed
  let delta := (beta * xt_tau) / (1 + xt_tau ^ nExp) - gamma * xt
  let val' := xt + delta
  let h1 := g.history ++ [val']
  let h2 := if h1.length > capN then h1.tail else h1
  (val', { history := h2, t := g.t, val := val' })

/-- The `reset()` method: re-seed the history with `Array(200).fill(1.2)`,
restore the current value and zero the counter. -/
def reset (_g : MackeyGlassGenerator) : MackeyGlassGenerator :=
  { history := List.replicate seedCount seed, t := 0, val := seed }

/-- Output sequence of `n` consecutive `next()` calls. -/
def run (g : MackeyGlassGenerator) : ℕ → List ℚ
  | 0 => []
  | n + 1 =>
      let r := next g
      r.1 :: run r.2 n

/-- States the program can put the generator in: freshly constructed,
after any `next()`, or after any `reset()`. -/
inductive Reachable : MackeyGlassGenerator → Prop
  | mk : Reachable (mkGenerator ())
  | step (g : MackeyGlassGenerator) : Reachable g → Reachable (next g).2
  | rst (g : MackeyGlassGenerator) : Reachable (reset g)

/-- Invariant maintained by the generator: the history is at least `τ`
long and every stored value, as well as the current one, is positive. -/
def Good (g : MackeyGlassGenerator) : Prop :=
  tauN ≤ g.history.length ∧ (∀ x ∈ g.history, 0 < x) ∧ 0 < g.val

end MackeyGlassGenerator

/-- Transcription of the claim's description of one `next()` call: read
the current value and the history value `τ` steps back (seed as fallback
when the history is shorter than `τ`), form the increment from the fixed
constants, append the new value, and drop the oldest entry once the
length exceeds the cap. Kept separate from `next` so the two can be
compared. -/
def mackeyNextSpec (g : MackeyGlassGenerator) : ℚ × MackeyGlassGenerator :=
  let xt := g.val
  let xt_tau :=
    if g.history.length < MackeyGlassGenerator.tauN then MackeyGlassGenerator.seed
    else g.history.getD (g.history.length - MackeyGlassGenerator.tauN) 0
  let delta :=
    (MackeyGlassGenerator.beta * xt_tau) / (1 + xt_tau ^ MackeyGlassGenerator.nExp) -
      MackeyGlassGenerator.gamma * xt
  let val' := xt + delta
  let h1 := g.history ++ [val']
  let h2 := if h1.length > MackeyGlassGenerator.capN then h1.tail else h1
  (val', { history := h2, t := g.t, val := val' })

/-- State of the readout layer: its public weight vector (always of length
4 in the program, for the features bias, input, scaled state, squared
scaled state). -/
structure ReadoutLayer where
  weights : List ℚ
deriving DecidableEq, Repr

namespace ReadoutLayer

def learningRate : ℚ := 0.02

/-- Feature vector `[1, u, A/20, (A/20)^2]` built by both `predict` and
`train`. -/
def features (input reservoirState : ℚ) : List ℚ :=
  [1, input, reservoirState / 20, (reservoirState / 20) ^ 2]

/-- Dot product via `features.reduce((sum, f, i) => sum + f * weights[i], 0)`;
the weights list has length 4 everywhere in the program, matching the
feature list. -/
def dotFeatures (fs ws : List ℚ) : ℚ :=
  (List.zipWith (fun f w => f * w) fs ws).foldl (· + ·) 0

/-- Fresh readout layer: all four weights zero. -/
def mkReadout (_u : Unit) : ReadoutLayer :=
  { weights := [0, 0, 0, 0] }

/-- The `predict` method: dot product of features and weights. The source
method reads `this.weights` and assigns nothing, so its embedding takes
the state and returns only the prediction. -/
def predict (r : ReadoutLayer) (input reservoirState : ℚ) : ℚ :=
  dotFeatures (features input reservoirState) r.weights

/-- The `train` method: prediction, error, LMS weight update; returns the
pre-update error together with the updated layer. -/
def train (r : ReadoutLayer) (input reservoirState target : ℚ) :
    ℚ × ReadoutLayer :=
  let fs := features input reservoirState
  let prediction := dotFeatures fs r.weights
  let error := target - prediction
  let weights' := List.zipWith (fun w f => w + learningRate * error * f) r.weights fs
  (error, { weights := weights' })

/-- The `reset()` method of the readout layer. -/
def resetReadout (_r : ReadoutLayer) : ReadoutLayer :=
  { weights := [0, 0, 0, 0] }

/-- One element of a call sequence against the readout layer. -/
inductive Call where
  | predictCall (u A : ℚ)
  | trainCall (u A target : ℚ)
deriving DecidableEq, Repr

/-- Whether a call is a `train` call. -/
def Call.isTrain : Call → Bool
  | .predictCall _ _ => false
  | .trainCall _ _ _ => true

/-- Run a call sequence, returning the final layer state. -/
def runCalls (r : ReadoutLayer) : List Call → ReadoutLayer
  | [] => r
  | .predictCall _ _ :: rest => runCalls r rest
  | .trainCall u A tgt :: rest => runCalls (train r u A tgt).2 rest

/-- Run a call sequence, collecting the scalar outputs of the `train`
calls (the values the learning process feeds back to the caller). -/
def trainOutputs (r : ReadoutLayer) : List Call → List ℚ
  | [] => []
  | .predictCall _ _ :: rest => trainOutputs r rest
  | .trainCall u A tgt :: rest =>
      (train r u A tgt).1 :: trainOutputs (train r u A tgt).2 rest

end ReadoutLayer

/-! Theorems. -/

/-- Drive sequence of the end-to-end scenario of the spec. -/
def scenarioDrives : List ℚ := [0, 0.5, 1.0, 1.1, 1.1, 0.5, 0, -0.9, -0.9, -1.0, 0]

/-- Branch trace of the end-to-end scenario: the flip to Upper happens on
the step consuming the first `1.1`, the flip to Lower on the step
consuming the first `-0.9`. -/
lemma scenarioTrace_eq :
    branchTrace initialLowerState scenarioDrives =
      [.lower, .lower, .lower, .lower, .upper, .upper, .upper, .upper,
       .lower, .lower, .lower, .lower] := by
  norm_num [scenarioDrives, branchTrace, stepSimulation, calculateAmplitude,
    calculateFrequency, initialLowerState, CONSTANTS.THRESHOLD_UP, CONSTANTS.THRESHOLD_DOWN]

/-- C1, counterexample: starting from branch Upper at drive 0 and sweeping
down past THRESHOLD_DOWN (to -1) then back to 0, and starting from branch
Lower and sweeping up past THRESHOLD_UP (to 1.2) then back to 0, yields
the SAME amplitude (35/2) after the final step, contrary to the claim that
the two amplitudes differ. -/
theorem path_dependence_amplitude_counterexample :
    (runDrives initialUpperState [-1, 0]).amplitude =
      (runDrives initialLowerState [1.2, 0]).amplitude := by
  norm_num [runDrives, stepSimulation, calculateAmplitude, calculateFrequency,
    initialUpperState, initialLowerState, CONSTANTS.THRESHOLD_UP, CONSTANTS.THRESHOLD_DOWN,
    CONSTANTS.AMP_LOWER_QUAD, CONSTANTS.AMP_LOWER_LIN, CONSTANTS.AMP_LOWER_CONST,
    CONSTANTS.AMP_UPPER_QUAD, CONSTANTS.AMP_UPPER_LIN, CONSTANTS.AMP_UPPER_CONST]

/-- C1, amended: the two paths are genuinely path dependent — they end on
different branches and with different frequency outputs — but their
amplitude outputs at drive 0 coincide, because the two amplitude curves
agree at drive 0 (the pinch of the loop). -/
theorem path_dependence_amended :
    (runDrives initialUpperState [-1, 0]).branch = Branch.lower ∧
    (runDrives initialLowerState [1.2, 0]).branch = Branch.upper ∧
    (runDrives initialUpperState [-1, 0]).amplitude =
      (runDrives initialLowerState [1.2, 0]).amplitude ∧
    (runDrives initialUpperState [-1, 0]).frequency ≠
      (runDrives initialLowerState [1.2, 0]).frequency ∧
    (∀ b : Branch, calculateAmplitude 0 b = CONSTANTS.AMP_LOWER_CONST) := by
  refine ⟨?_, ?_, ?_, ?_, ?_⟩ <;>
  · first
    | (intro b; cases b) <;>
        norm_num [calculateAmplitude, CONSTANTS.AMP_LOWER_QUAD, CONSTANTS.AMP_LOWER_LIN,
          CONSTANTS.AMP_LOWER_CONST, CONSTANTS.AMP_UPPER_QUAD, CONSTANTS.AMP_UPPER_LIN,
          CONSTANTS.AMP_UPPER_CONST]
    | norm_num [runDrives, stepSimulation, calculateAmplitude, calculateFrequency,
        initialUpperState, initialLowerState, CONSTANTS.THRESHOLD_UP, CONSTANTS.THRESHOLD_DOWN,
        CONSTANTS.AMP_LOWER_QUAD, CONSTANTS.AMP_LOWER_LIN, CONSTANTS.AMP_LOWER_CONST,
        CONSTANTS.AMP_UPPER_QUAD, CONSTANTS.AMP_UPPER_LIN, CONSTANTS.AMP_UPPER_CONST,
        CONSTANTS.FREQ_LOWER_BASE, CONSTANTS.FREQ_UPPER_BASE, CONSTANTS.FREQ_SLOPE]

/-- C2: the branch transition rule of `stepSimulation` — the new branch is
Upper when the drive strictly increased and reached THRESHOLD_UP
(inclusive), Lower when it strictly decreased and reached THRESHOLD_DOWN
(inclusive), and the previous branch otherwise; in particular a repeated
drive value (direction Stationary) never changes the branch. -/
theorem step_branch_transition_rule (s : SimulationState) (t : ℚ) :
    ((stepSimulation t s).branch =
      if t > s.voltage ∧ t ≥ CONSTANTS.THRESHOLD_UP then Branch.upper
      else if t < s.voltage ∧ t ≤ CONSTANTS.THRESHOLD_DOWN then Branch.lower
      else s.branch) ∧
    (t = s.voltage → (stepSimulation t s).branch = s.branch) := by
  constructor
  · simp only [stepSimulation]
    split_ifs <;> (simp_all; try linarith)
  · intro h
    subst h
    simp [stepSimulation]

/-- C2, witness: holding the drive at exactly THRESHOLD_UP (same value
twice in a row, direction Stationary) does not flip the branch even
though the drive sits on the threshold. -/
theorem step_branch_transition_rule_witness :
    (stepSimulation 1.1
      { voltage := 1.1, frequency := 0, amplitude := 0,
        branch := Branch.lower, direction := Direction.stationary }).branch =
      Branch.lower :=
  (step_branch_transition_rule
    { voltage := 1.1, frequency := 0, amplitude := 0,
      branch := Branch.lower, direction := Direction.stationary } 1.1).2 rfl

/-- C3, counterexample: in the end-to-end scenario the flip to Upper does
NOT happen at the second `1.1` — the branch is already Upper after the
first `1.1` (arrival step, direction Increasing, inclusive threshold),
and the step consuming the second `1.1` leaves the branch unchanged;
likewise the flip to Lower happens at the first `-0.9`, not the second. -/
theorem scenario_flip_location_counterexample :
    (runDrives initialLowerState [0, 0.5, 1.0]).branch = Branch.lower ∧
    (runDrives initialLowerState [0, 0.5, 1.0, 1.1]).branch = Branch.upper ∧
    (runDrives initialLowerState [0, 0.5, 1.0, 1.1, 1.1]).branch = Branch.upper ∧
    (runDrives initialLowerState [0, 0.5, 1.0, 1.1, 1.1, 0.5, 0]).branch = Branch.upper ∧
    (runDrives initialLowerState [0, 0.5, 1.0, 1.1, 1.1, 0.5, 0, -0.9]).branch = Branch.lower ∧
    (runDrives initialLowerState [0, 0.5, 1.0, 1.1, 1.1, 0.5, 0, -0.9, -0.9]).branch =
      Branch.lower := by
  refine ⟨?_, ?_, ?_, ?_, ?_, ?_⟩ <;>
    norm_num [runDrives, stepSimulation, calculateAmplitude, calculateFrequency,
      initialLowerState, CONSTANTS.THRESHOLD_UP, CONSTANTS.THRESHOLD_DOWN]

/-- C3, amended: the scenario flips to Upper exactly once — at the first
`1.1` — and to Lower exactly once — at the first `-0.9` — and ends on
branch Lower; the full branch trace is as listed. -/
theorem scenario_amended :
    branchTrace initialLowerState scenarioDrives =
      [.lower, .lower, .lower, .lower, .upper, .upper, .upper, .upper,
       .lower, .lower, .lower, .lower] ∧
    flipsTo .upper (branchTrace initialLowerState scenarioDrives) = 1 ∧
    flipsTo .lower (branchTrace initialLowerState scenarioDrives) = 1 ∧
    (runDrives initialLowerState scenarioDrives).branch = Branch.lower := by
  have htr := scenarioTrace_eq
  have hlast : (runDrives initialLowerState scenarioDrives).branch = Branch.lower := by
    norm_num [scenarioDrives, runDrives, stepSimulation, calculateAmplitude,
      calculateFrequency, initialLowerState, CONSTANTS.THRESHOLD_UP, CONSTANTS.THRESHOLD_DOWN]
  refine ⟨htr, ?_, ?_, hlast⟩ <;> rw [htr] <;> rfl

/-- C4: the amplitude response is the per-branch quadratic
`quad(b)·d² + lin(b)·d + const(b)`; the two branches share the quadratic
and constant coefficients while `lin(Upper) = -lin(Lower)`, so the two
curves agree at drive 0 (the pinch) and differ at every nonzero drive. -/
theorem amplitude_branch_symmetry :
    (∀ d : ℚ, calculateAmplitude d .lower =
      CONSTANTS.AMP_LOWER_QUAD * d ^ 2 + CONSTANTS.AMP_LOWER_LIN * d +
        CONSTANTS.AMP_LOWER_CONST) ∧
    (∀ d : ℚ, calculateAmplitude d .upper =
      CONSTANTS.AMP_UPPER_QUAD * d ^ 2 + CONSTANTS.AMP_UPPER_LIN * d +
        CONSTANTS.AMP_UPPER_CONST) ∧
    CONSTANTS.AMP_UPPER_QUAD = CONSTANTS.AMP_LOWER_QUAD ∧
    CONSTANTS.AMP_UPPER_CONST = CONSTANTS.AMP_LOWER_CONST ∧
    CONSTANTS.AMP_UPPER_LIN = -CONSTANTS.AMP_LOWER_LIN ∧
    calculateAmplitude 0 .upper = calculateAmplitude 0 .lower ∧
    (∀ d : ℚ, d ≠ 0 → calculateAmplitude d .upper ≠ calculateAmplitude d .lower) := by
  refine ⟨fun d => rfl, fun d => rfl, rfl, rfl, by norm_num [CONSTANTS.AMP_UPPER_LIN,
    CONSTANTS.AMP_LOWER_LIN], by norm_num [calculateAmplitude, CONSTANTS.AMP_UPPER_QUAD,
    CONSTANTS.AMP_UPPER_LIN, CONSTANTS.AMP_UPPER_CONST, CONSTANTS.AMP_LOWER_QUAD,
    CONSTANTS.AMP_LOWER_LIN, CONSTANTS.AMP_LOWER_CONST], ?_⟩
  intro d hd h
  simp only [calculateAmplitude, CONSTANTS.AMP_UPPER_QUAD, CONSTANTS.AMP_UPPER_LIN,
    CONSTANTS.AMP_UPPER_CONST, CONSTANTS.AMP_LOWER_QUAD, CONSTANTS.AMP_LOWER_LIN,
    CONSTANTS.AMP_LOWER_CONST] at h
  apply hd
  linarith

/-- C4, witness: at the concrete nonzero drive 1 the two branch curves
differ (10 versus 20). -/
theorem amplitude_branch_symmetry_witness :
    (1 : ℚ) ≠ 0 ∧ calculateAmplitude 1 .upper ≠ calculateAmplitude 1 .lower :=
  ⟨by norm_num, amplitude_branch_symmetry.2.2.2.2.2.2 1 (by norm_num)⟩

/-- Folding the constructor's push loop over any accumulator appends a
block of copies of the pushed value. -/
lemma foldl_append_replicate (c : ℚ) (n : ℕ) (a : List ℚ) :
    (List.range n).foldl (fun h _ => h ++ [c]) a = a ++ List.replicate n c := by
  induction n generalizing a with
  | zero => simp
  | succ k ih =>
      rw [List.range_succ, List.foldl_append, ih]
      simp [List.replicate_succ']

/-- The constructor's seed loop produces the same history as
`Array(200).fill(1.2)` used by `reset`. -/
lemma seedHistory_eq : MackeyGlassGenerator.seedHistory =
    List.replicate MackeyGlassGenerator.seedCount MackeyGlassGenerator.seed := by
  simpa using foldl_append_replicate MackeyGlassGenerator.seed
    MackeyGlassGenerator.seedCount []

namespace MackeyGlassGenerator

/-- Applying `jsOr` to a present value falls back only when the value is
the falsy number 0. -/
lemma jsOr_some (v d : ℚ) : jsOr (some v) d = if v = 0 then d else v := rfl

/-- A fresh generator satisfies the history invariant. -/
lemma good_mkGenerator : Good (mkGenerator ()) := by
  refine ⟨?_, ?_, ?_⟩
  · rw [show (mkGenerator ()).history = seedHistory from rfl, seedHistory_eq,
      List.length_replicate]
    norm_num [tauN, seedCount]
  · intro x hx
    rw [show (mkGenerator ()).history = seedHistory from rfl, seedHistory_eq] at hx
    rw [(List.mem_replicate.mp hx).2]
    norm_num [seed]
  · norm_num [mkGenerator, seed]

/-- A reset generator satisfies the history invariant. -/
lemma good_reset (g : MackeyGlassGenerator) : Good (reset g) := by
  refine ⟨?_, ?_, ?_⟩
  · rw [show (reset g).history = List.replicate seedCount seed from rfl,
      List.length_replicate]
    norm_num [tauN, seedCount]
  · intro x hx
    simp only [reset] at hx
    rw [(List.mem_replicate.mp hx).2]
    norm_num [seed]
  · norm_num [reset, seed]

/-- On a state satisfying the invariant, the JavaScript lookup
`history[history.length - tau] || 1.2` returns exactly the history value
`τ` positions from the end, and that value is positive. -/
lemma xt_tau_eq (g : MackeyGlassGenerator) (hg : Good g) :
    jsOr (jsIndex g.history ((g.history.length : ℤ) - (tauN : ℤ))) seed =
      g.history.getD (g.history.length - tauN) 0 ∧
    0 < g.history.getD (g.history.length - tauN) 0 := by
  obtain ⟨hlen, hpos, hval⟩ := hg
  have htau : (0 : ℕ) < tauN := by norm_num [tauN]
  have hlt : g.history.length - tauN < g.history.length := by omega
  have hmem : g.history.getD (g.history.length - tauN) 0 ∈ g.history := by
    rw [List.getD_eq_getElem g.history 0 hlt]
    exact List.getElem_mem hlt
  have hv : 0 < g.history.getD (g.history.length - tauN) 0 := hpos _ hmem
  have hc : 0 ≤ (g.history.length : ℤ) - (tauN : ℤ) ∧
      ((g.history.length : ℤ) - (tauN : ℤ)).toNat < g.history.length := by
    constructor <;> omega
  have hidx : ((g.history.length : ℤ) - (tauN : ℤ)).toNat = g.history.length - tauN := by
    omega
  refine ⟨?_, hv⟩
  unfold jsIndex
  rw [if_pos hc, hidx, jsOr_some]
  exact if_neg (ne_of_gt hv)

/-- On a state satisfying the invariant, `next` computes exactly the
delayed-recurrence update written with the direct history lookup. -/
lemma next_eq_explicit (g : MackeyGlassGenerator) (hg : Good g) :
    next g =
      (let v := g.history.getD (g.history.length - tauN) 0
       let val' := g.val + ((beta * v) / (1 + v ^ nExp) - gamma * g.val)
       let h1 := g.history ++ [val']
       (val', { history := if h1.length > capN then h1.tail else h1, t := g.t,
                val := val' })) := by
  have h := xt_tau_eq g hg
  simp only [next]
  rw [h.1]

/-- `next` preserves the history invariant. -/
lemma good_next (g : MackeyGlassGenerator) (hg : Good g) : Good (next g).2 := by
  obtain ⟨hlen, hpos, hval⟩ := hg
  have hx := xt_tau_eq g ⟨hlen, hpos, hval⟩
  rw [next_eq_explicit g ⟨hlen, hpos, hval⟩]
  set v := g.history.getD (g.history.length - tauN) 0 with hvdef
  have hvpos : 0 < v := hx.2
  have hden : (0 : ℚ) < 1 + v ^ nExp := by positivity
  have hfrac : 0 < (beta * v) / (1 + v ^ nExp) := by
    apply div_pos _ hden
    have hb : (0 : ℚ) < beta := by norm_num [beta]
    exact mul_pos hb hvpos
  have hval' : 0 < g.val + ((beta * v) / (1 + v ^ nExp) - gamma * g.val) := by
    have e : g.val + ((beta * v) / (1 + v ^ nExp) - gamma * g.val) =
        (1 - gamma) * g.val + (beta * v) / (1 + v ^ nExp) := by ring
    rw [e]
    have h1 : (0 : ℚ) < (1 - gamma) * g.val := by
      apply mul_pos _ hval
      norm_num [gamma]
    linarith
  set val' := g.val + ((beta * v) / (1 + v ^ nExp) - gamma * g.val) with hv'def
  refine ⟨?_, ?_, ?_⟩
  · show tauN ≤ (if (g.history ++ [val']).length > capN
      then (g.history ++ [val']).tail else g.history ++ [val']).length
    split_ifs <;> simp [List.length_tail, List.length_append] <;> omega
  · show ∀ x ∈ (if (g.history ++ [val']).length > capN
      then (g.history ++ [val']).tail else g.history ++ [val']), 0 < x
    intro x hxmem
    have hx1 : x ∈ g.history ++ [val'] := by
      split_ifs at hxmem with hc
      · exact List.mem_of_mem_tail hxmem
      · exact hxmem
    rcases List.mem_append.mp hx1 with hmem | hmem
    · exact hpos _ hmem
    · rw [List.mem_singleton.mp hmem]
      exact hval'
  · exact hval'

/-- Every state the program can reach satisfies the invariant. -/
lemma good_of_reachable (g : MackeyGlassGenerator) (h : Reachable g) : Good g := by
  induction h with
  | mk => exact good_mkGenerator
  | step g' _ ih => exact good_next g' ih
  | rst g' => exact good_reset g'

end MackeyGlassGenerator

/-- C5: on every generator state the program can reach, `next()` behaves
exactly as the claim describes: it reads the current value and the
history value `τ` steps back (seed fallback when the history is shorter
than `τ`, which never happens on reachable states), computes
`Δ = β·x(t-τ)/(1 + x(t-τ)^n) − γ·x(t)`, returns and stores
`x(t+1) = x(t) + Δ`, appends it to the history and drops the oldest
entry once the length exceeds the cap, with cap strictly larger than
`τ`. -/
theorem mackey_next_matches_claim (g : MackeyGlassGenerator)
    (h : MackeyGlassGenerator.Reachable g) :
    MackeyGlassGenerator.next g = mackeyNextSpec g ∧
    MackeyGlassGenerator.tauN < MackeyGlassGenerator.capN := by
  have hg := MackeyGlassGenerator.good_of_reachable g h
  have hx := MackeyGlassGenerator.xt_tau_eq g hg
  refine ⟨?_, by norm_num [MackeyGlassGenerator.tauN, MackeyGlassGenerator.capN]⟩
  simp only [MackeyGlassGenerator.next, mackeyNextSpec]
  rw [hx.1, if_neg (not_lt.mpr hg.1)]

/-- C5, witness: the freshly constructed generator is reachable and
`next` agrees with the claim's recurrence there. -/
theorem mackey_next_matches_claim_witness :
    MackeyGlassGenerator.next (MackeyGlassGenerator.mkGenerator ()) =
      mackeyNextSpec (MackeyGlassGenerator.mkGenerator ()) ∧
    MackeyGlassGenerator.tauN < MackeyGlassGenerator.capN :=
  mackey_next_matches_claim (MackeyGlassGenerator.mkGenerator ())
    MackeyGlassGenerator.Reachable.mk

/-- C6: generator determinism and the reset round trip — any two freshly
constructed generators produce the same output sequence of `next()`
calls of any length, and resetting an arbitrarily-used generator
reproduces exactly the fresh output sequence. -/
theorem generator_determinism_and_reset (N : ℕ) (g g₁ g₂ : MackeyGlassGenerator)
    (h₁ : g₁ = MackeyGlassGenerator.mkGenerator ())
    (h₂ : g₂ = MackeyGlassGenerator.mkGenerator ()) :
    MackeyGlassGenerator.run g₁ N = MackeyGlassGenerator.run g₂ N ∧
    MackeyGlassGenerator.run (MackeyGlassGenerator.reset g) N =
      MackeyGlassGenerator.run (MackeyGlassGenerator.mkGenerator ()) N := by
  subst h₁
  subst h₂
  refine ⟨rfl, ?_⟩
  have hre : MackeyGlassGenerator.reset g = MackeyGlassGenerator.mkGenerator () := by
    simp [MackeyGlassGenerator.reset, MackeyGlassGenerator.mkGenerator, seedHistory_eq]
  rw [hre]

/-- C6, witness: with two fresh generators and a generator that has
already taken one step, the determinism and reset properties hold for
two-element output sequences. -/
theorem generator_determinism_and_reset_witness :
    MackeyGlassGenerator.run (MackeyGlassGenerator.mkGenerator ()) 2 =
      MackeyGlassGenerator.run (MackeyGlassGenerator.mkGenerator ()) 2 ∧
    MackeyGlassGenerator.run
        (MackeyGlassGenerator.reset
          (MackeyGlassGenerator.next (MackeyGlassGenerator.mkGenerator ())).2) 2 =
      MackeyGlassGenerator.run (MackeyGlassGenerator.mkGenerator ()) 2 :=
  generator_determinism_and_reset 2
    (MackeyGlassGenerator.next (MackeyGlassGenerator.mkGenerator ())).2
    (MackeyGlassGenerator.mkGenerator ()) (MackeyGlassGenerator.mkGenerator ()) rfl rfl

/-- C7: `train(u, A, target)` on any weight vector computes the features
`[1, u, A/20, (A/20)²]`, the prediction as their dot product with the
current weights, the error `target − ŷ`, updates every weight by
`+ learning_rate · error · feature`, and returns the pre-update error. -/
theorem train_semantics (w0 w1 w2 w3 u A target : ℚ) :
    (ReadoutLayer.train ⟨[w0, w1, w2, w3]⟩ u A target).1 =
      target - (w0 * 1 + w1 * u + w2 * (A / 20) + w3 * (A / 20) ^ 2) ∧
    (ReadoutLayer.train ⟨[w0, w1, w2, w3]⟩ u A target).2.weights =
      [w0 + ReadoutLayer.learningRate *
          (target - (w0 * 1 + w1 * u + w2 * (A / 20) + w3 * (A / 20) ^ 2)) * 1,
       w1 + ReadoutLayer.learningRate *
          (target - (w0 * 1 + w1 * u + w2 * (A / 20) + w3 * (A / 20) ^ 2)) * u,
       w2 + ReadoutLayer.learningRate *
          (target - (w0 * 1 + w1 * u + w2 * (A / 20) + w3 * (A / 20) ^ 2)) * (A / 20),
       w3 + ReadoutLayer.learningRate *
          (target - (w0 * 1 + w1 * u + w2 * (A / 20) + w3 * (A / 20) ^ 2)) *
            (A / 20) ^ 2] := by
  constructor
  · simp only [ReadoutLayer.train, ReadoutLayer.features, ReadoutLayer.dotFeatures,
      List.zipWith, List.foldl]
    ring
  · simp only [ReadoutLayer.train, ReadoutLayer.features, ReadoutLayer.dotFeatures,
      List.zipWith, List.foldl, List.cons.injEq, and_true]
    refine ⟨by ring, by ring, by ring, by ring⟩

/-- C8: `predict` is the dot product of the weights with the features
`[1, u, A/20, (A/20)²]` and has no effect on the learning state: erasing
the predict calls from any call sequence changes neither the final
weights nor the sequence of train-call results. -/
theorem predict_no_side_effects :
    (∀ w0 w1 w2 w3 u A : ℚ,
      ReadoutLayer.predict ⟨[w0, w1, w2, w3]⟩ u A =
        w0 * 1 + w1 * u + w2 * (A / 20) + w3 * (A / 20) ^ 2) ∧
    (∀ (r : ReadoutLayer) (calls : List ReadoutLayer.Call),
      ReadoutLayer.runCalls r calls =
        ReadoutLayer.runCalls r (calls.filter ReadoutLayer.Call.isTrain) ∧
      ReadoutLayer.trainOutputs r calls =
        ReadoutLayer.trainOutputs r (calls.filter ReadoutLayer.Call.isTrain)) := by
  constructor
  · intro w0 w1 w2 w3 u A
    simp only [ReadoutLayer.predict, ReadoutLayer.features, ReadoutLayer.dotFeatures,
      List.zipWith, List.foldl]
    ring
  · intro r calls
    induction calls generalizing r with
    | nil => exact ⟨rfl, rfl⟩
    | cons c rest ih =>
        cases c with
        | predictCall u A =>
            simpa [ReadoutLayer.runCalls, ReadoutLayer.trainOutputs,
              List.filter_cons, ReadoutLayer.Call.isTrain] using ih r
        | trainCall u A tgt =>
            simpa [ReadoutLayer.runCalls, ReadoutLayer.trainOutputs,
              List.filter_cons, ReadoutLayer.Call.isTrain]
              using ih (ReadoutLayer.train r u A tgt).2

/-- C10: every step result is internally consistent — the stored voltage
is the drive just applied, the direction is the three-way comparison with
the previous voltage, and frequency and amplitude are exactly the
response-model values at the stored voltage and branch. -/
theorem step_internal_consistency (s : SimulationState) (t : ℚ) :
    (stepSimulation t s).voltage = t ∧
    (stepSimulation t s).direction =
      (if t > s.voltage then Direction.increasing
       else if t < s.voltage then Direction.decreasing
       else Direction.stationary) ∧
    (stepSimulation t s).frequency = calculateFrequency t (stepSimulation t s).branch ∧
    (stepSimulation t s).amplitude = calculateAmplitude t (stepSimulation t s).branch :=
  ⟨rfl, rfl, rfl, rfl⟩

end Pinched
